import Mathlib

/-!
Verification of the ghlabel reconciliation tool against its specification.

The Rust sources are shallowly embedded:
* `src/label.rs`  : the `Label` record, its name-only equality, `Label::new`;
* `src/client.rs` : the HTTP client's request construction and
  status-code handling for list/create/update/delete;
* `src/main.rs`   : the setup pipeline (template reading, YAML
  destructuring, initial list) and the create/update/delete loops.

External collaborators (the YAML loader, the URL parser, the JSON decoder
of the `rustc_serialize` library and the HTTP transport) are modelled from
the spec: the YAML loader and URL parser are parameters, the JSON decoder
is a concrete parser for arrays of string-valued objects with keys
name, color, url, and the transport is an oracle mapping requests to
responses.
-/

set_option maxRecDepth 4000

namespace Ghlabel

/-- Label record from src/label.rs: color, name, url (field order as in the
source). The url is the resource locator. -/
structure Label where
  color : String
  name : String
  url : String
deriving DecidableEq, Repr

/-- PartialEq for Label from src/label.rs: two labels are equal iff their
names are equal; color and url are ignored. -/
def labelEq (a b : Label) : Bool :=
  a.name == b.name

/-- Vec::contains under Label's PartialEq: membership by name only. -/
def listContains (s : List Label) (l : Label) : Bool :=
  s.any (fun e => labelEq e l)

/-- An action computed by the reconciliation pass: create or update carries
the desired (template) label, delete carries the existing (remote) label. -/
inductive Action where
  | create (l : Label)
  | update (l : Label)
  | delete (l : Label)
deriving DecidableEq, Repr

/-- Whether an action is a delete. -/
def Action.isDelete : Action → Bool
  | .delete _ => true
  | _ => false

/-- Whether an action is a create or an update addressed at name `n`. -/
def actionNamed (n : String) : Action → Bool
  | .create d => d.name == n
  | .update d => d.name == n
  | .delete l => l.name == n

/-- Decision taken for one desired label by the create/update loop of
src/main.rs lines 177-205: if the existing snapshot contains a label with
the same name, compare colors against the first such label (the source's
`find` followed by `unwrap`; the `none` branch is unreachable because
`contains` already succeeded) and update on a difference; otherwise create. -/
def cuAction (existing : List Label) (label : Label) : Option Action :=
  if listContains existing label then
    match existing.find? (fun e => e.name == label.name) with
    | some existing_label =>
        if label.color ≠ existing_label.color then some (.update label) else none
    | none => none
  else
    some (.create label)

/-- Actions of the create/update phase, in template order. -/
def createUpdateActions (labels existing : List Label) : List Action :=
  labels.filterMap (cuAction existing)

/-- Actions of the delete phase (src/main.rs lines 207-220): delete every
existing label whose name appears in no desired label, in fetched order. -/
def deleteActions (labels existing : List Label) : List Action :=
  (existing.filter (fun e => !(listContains labels e))).map Action.delete

/-- The full reconciliation pass: create/update phase then delete phase. -/
def reconcile (labels existing : List Label) : List Action :=
  createUpdateActions labels existing ++ deleteActions labels existing

/-- Modelled from the spec: decision of the reference algorithm of section
4.1 for one desired label, stated with existential matching ("existing
contains a label e with e.name == d.name, and e.color != d.color"). -/
def specCuAction (existing : List Label) (d : Label) : Option Action :=
  if existing.any (fun e => e.name == d.name) then
    if existing.any (fun e => e.name == d.name && e.color != d.color) then
      some (.update d)
    else
      none
  else
    some (.create d)

/-- Modelled from the spec: the reference reconciliation algorithm of
section 4.1; create/update decisions in template order, then a delete for
every existing label whose name matches no desired label. -/
def specReconcile (desired existing : List Label) : List Action :=
  desired.filterMap (specCuAction existing)
    ++ (existing.filter (fun e => desired.all (fun d => d.name != e.name))).map Action.delete

/-! ### HTTP model and the remote label client (src/client.rs) -/

/-- HTTP method of a request issued by the client. -/
inductive HttpMethod where
  | get
  | post
  | patch
  | delete
deriving DecidableEq, Repr

/-- An HTTP request as assembled by the client: method, url, optional body. -/
structure HttpRequest where
  method : HttpMethod
  url : String
  body : Option String
deriving DecidableEq, Repr

/-- An HTTP response as observed by the client: status code and body text. -/
structure Response where
  status : Nat
  body : String
deriving DecidableEq, Repr

/-- Error produced by the JSON decoder (the DecoderError of the
rustc_serialize library): a syntax failure, a shape mismatch, or a missing
struct field. None of the constructors carries the raw response body. -/
inductive DecoderError where
  | parseError
  | expectedError (expected found : String)
  | missingField (field : String)
deriving DecidableEq, Repr

/-- Error enum from src/client.rs: transport error, io error, JSON decode
error, or an unexpected status carrying the response body text. -/
inductive ApiError where
  | hyper (msg : String)
  | io (msg : String)
  | json (e : DecoderError)
  | notOk (body : String)
deriving DecidableEq, Repr

/-- The response body carried by an error, when one is carried: only the
NotOk constructor of src/client.rs stores the response body. -/
def ApiError.responseBody : ApiError → Option String
  | .notOk body => some body
  | _ => none

/-! ### A JSON subset parser

Modelled from the spec: the external JSON machinery. The spec says list
responses are parsed as a JSON array of objects with string keys name,
color and url, and that the client posts a JSON object with keys name and
color. The parser below handles exactly that subset: strings with escape
sequences, and string-valued objects. -/

/-- Whitespace recognised between JSON tokens. -/
def isWsChar (c : Char) : Bool :=
  c = ' ' || c = '\n' || c = '\t' || c = '\r'

/-- Skip leading whitespace. -/
def skipWs : List Char → List Char
  | [] => []
  | c :: cs => if isWsChar c then skipWs cs else c :: cs

/-- Character denoted by a JSON escape sequence, if the escape is legal. -/
def escChar (e : Char) : Option Char :=
  if e = 'n' then some '\n'
  else if e = 't' then some '\t'
  else if e = 'r' then some '\r'
  else if e = '/' then some '/'
  else if e = '"' then some '"'
  else if e = '\\' then some '\\'
  else none

/-- Body of a JSON string literal, after the opening quote: characters up
to the closing quote, with escapes resolved; the flag records a pending
backslash. Unescaped control characters and bad escapes are rejected.
Returns the decoded characters and the input after the closing quote. -/
def strBodyLoop : Bool → List Char → Option (List Char × List Char)
  | _, [] => none
  | true, c :: cs =>
    match escChar c with
    | some d =>
      match strBodyLoop false cs with
      | some (s, r) => some (d :: s, r)
      | none => none
    | none => none
  | false, c :: cs =>
    if c = '"' then some ([], cs)
    else if c = '\\' then strBodyLoop true cs
    else if c.toNat < 32 then none
    else
      match strBodyLoop false cs with
      | some (s, r) => some (c :: s, r)
      | none => none

/-- Consume one expected character. -/
def expectChar (c : Char) : List Char → Option (List Char)
  | [] => none
  | x :: xs => if x = c then some xs else none

/-- Parse a complete JSON string literal (opening quote included). -/
def parseJsonStringTok (cs : List Char) : Option (String × List Char) :=
  match expectChar '"' cs with
  | none => none
  | some rest =>
    match strBodyLoop false rest with
    | some (s, r) => some (String.mk s, r)
    | none => none

/-- One string-valued field and then the rest of an object body: key,
colon, string value, followed by either a comma and more fields or the
closing brace. Fuel bounds the number of fields. -/
def parseFieldsLoop : Nat → List Char → Option (List (String × String) × List Char)
  | 0, _ => none
  | fuel + 1, cs =>
    match parseJsonStringTok (skipWs cs) with
    | none => none
    | some (k, r1) =>
      match expectChar ':' (skipWs r1) with
      | none => none
      | some r2 =>
        match parseJsonStringTok (skipWs r2) with
        | none => none
        | some (v, r3) =>
          match skipWs r3 with
          | ',' :: r4 =>
            match parseFieldsLoop fuel r4 with
            | some (fs, r5) => some ((k, v) :: fs, r5)
            | none => none
          | '\x7d' :: r4 => some ([(k, v)], r4)
          | _ => none

/-- Parse a string-valued JSON object. -/
def parseObjTok (fuel : Nat) (cs : List Char) : Option (List (String × String) × List Char) :=
  match expectChar '\x7b' (skipWs cs) with
  | none => none
  | some r1 =>
    match skipWs r1 with
    | '\x7d' :: r2 => some ([], r2)
    | _ => parseFieldsLoop fuel r1

/-- Elements of a JSON array of objects, after the opening bracket of a
non-empty array. Fuel bounds the number of elements. -/
def parseArrLoop : Nat → List Char → Option (List (List (String × String)) × List Char)
  | 0, _ => none
  | fuel + 1, cs =>
    match parseObjTok fuel cs with
    | none => none
    | some (obj, r1) =>
      match skipWs r1 with
      | ',' :: r2 =>
        match parseArrLoop fuel r2 with
        | some (objs, r3) => some (obj :: objs, r3)
        | none => none
      | ']' :: r2 => some ([obj], r2)
      | _ => none

/-- Parse a whole input as a JSON array of string-valued objects. -/
def parseLabelArray (s : String) : Option (List (List (String × String))) :=
  match expectChar '[' (skipWs s.data) with
  | none => none
  | some r1 =>
    match skipWs r1 with
    | ']' :: r2 => if (skipWs r2).isEmpty then some [] else none
    | _ =>
      match parseArrLoop (s.data.length + 1) r1 with
      | some (objs, r3) => if (skipWs r3).isEmpty then some objs else none
      | none => none

/-- Look up a field of a decoded object by key (first occurrence). -/
def fieldLookup (fs : List (String × String)) (k : String) : Option String :=
  (fs.find? (fun p => p.1 == k)).map (fun p => p.2)

/-- Decode one object into a Label: the name, color and url fields are
required, as in the RustcDecodable derivation for the Label struct. -/
def objToLabel (fs : List (String × String)) : Except DecoderError Label :=
  match fieldLookup fs "name" with
  | none => .error (.missingField "name")
  | some n =>
    match fieldLookup fs "color" with
    | none => .error (.missingField "color")
    | some c =>
      match fieldLookup fs "url" with
      | none => .error (.missingField "url")
      | some u => .ok { color := c, name := n, url := u }

/-- Modelled from the spec: the external JSON decoder used by
Client::list (json::decode into Vec of Label). The body must be an array
of objects carrying string fields name, color and url; anything else is a
decode error, and the error never contains the raw body. -/
def decodeLabels (body : String) : Except DecoderError (List Label) :=
  match parseLabelArray body with
  | none => .error .parseError
  | some objs => objs.mapM objToLabel

/-- Modelled from the spec: validity of a request body as a JSON object
with exactly two string-valued fields, used to state what a well-formed
create/update payload is. Parses one object and requires the input to be
exhausted. -/
def jsonObjectFields (s : String) : Option (List (String × String)) :=
  match expectChar '\x7b' (skipWs s.data) with
  | none => none
  | some r1 =>
    match parseJsonStringTok (skipWs r1) with
    | none => none
    | some (k1, r2) =>
      match expectChar ':' (skipWs r2) with
      | none => none
      | some r3 =>
        match parseJsonStringTok (skipWs r3) with
        | none => none
        | some (v1, r4) =>
          match expectChar ',' (skipWs r4) with
          | none => none
          | some r5 =>
            match parseJsonStringTok (skipWs r5) with
            | none => none
            | some (k2, r6) =>
              match expectChar ':' (skipWs r6) with
              | none => none
              | some r7 =>
                match parseJsonStringTok (skipWs r7) with
                | none => none
                | some (v2, r8) =>
                  match expectChar '\x7d' (skipWs r8) with
                  | none => none
                  | some r9 =>
                    if (skipWs r9).isEmpty then some [(k1, v1), (k2, v2)] else none

/-- A character a JSON encoder may emit unescaped inside a string literal. -/
def jsonSafeChar (c : Char) : Bool :=
  c ≠ '"' && c ≠ '\\' && 32 ≤ c.toNat

/-- A string that needs no JSON escaping. -/
def jsonSafe (s : String) : Bool :=
  s.data.all jsonSafeChar

/-! ### The client (src/client.rs) -/

/-- The client configuration from src/client.rs: repository, token, user
and endpoint (the hyper connection object carries no observable state). -/
structure Client where
  repo : String
  token : String
  user : String
  endpoint : String
deriving DecidableEq, Repr

/-- Request body built by Client::to_json_string: direct string
interpolation of name and color into a JSON-shaped template, with no
escaping of the interpolated values. -/
def to_json_string (label : Label) : String :=
  "\x7b\"name\": \"" ++ label.name ++ "\",\"color\":\"" ++ label.color ++ "\"\x7d"

/-- URL of the label collection, as formatted in Client::create and
Client::list. -/
def collectionUrl (c : Client) : String :=
  c.endpoint ++ "/repos/" ++ c.user ++ "/" ++ c.repo ++ "/labels"

/-- The GET request issued by Client::list. -/
def listRequest (c : Client) : HttpRequest :=
  { method := .get, url := collectionUrl c, body := none }

/-- The POST request issued by Client::create for a label. -/
def createRequest (c : Client) (label : Label) : HttpRequest :=
  { method := .post, url := collectionUrl c, body := some (to_json_string label) }

/-- The PATCH request issued by Client::update for a label: it goes to the
url stored in the label passed in, with the interpolated body. -/
def updateRequest (_c : Client) (label : Label) : HttpRequest :=
  { method := .patch, url := label.url, body := some (to_json_string label) }

/-- The DELETE request issued by Client::delete for a label: it goes to
the url stored in the label passed in. -/
def deleteRequest (_c : Client) (label : Label) : HttpRequest :=
  { method := .delete, url := label.url, body := none }

/-- Status handling of Client::create: only the Created status (201)
succeeds; any other status is a NotOk error carrying the body text. -/
def Client.create (_c : Client) (_label : Label) (resp : Response) : Except ApiError Unit :=
  if resp.status = 201 then .ok () else .error (.notOk resp.body)

/-- Status handling of Client::update: only Ok (200) succeeds; any other
status is a NotOk error carrying the body text. -/
def Client.update (_c : Client) (_label : Label) (resp : Response) : Except ApiError Unit :=
  if resp.status = 200 then .ok () else .error (.notOk resp.body)

/-- Status handling of Client::delete: only NoContent (204) succeeds; any
other status is a NotOk error carrying the body text. -/
def Client.delete (_c : Client) (_label : Label) (resp : Response) : Except ApiError Unit :=
  if resp.status = 204 then .ok () else .error (.notOk resp.body)

/-- Client::list: on status Ok (200) the body is decoded into labels, a
decode failure becoming a Json error; any other status is a NotOk error
carrying the body text. -/
def Client.list (_c : Client) (resp : Response) : Except ApiError (List Label) :=
  if resp.status = 200 then
    match decodeLabels resp.body with
    | .ok labels => .ok labels
    | .error e => .error (.json e)
  else
    .error (.notOk resp.body)

/-! ### Executor (the apply loops of src/main.rs lines 177-220) -/

/-- The three toggles of the run: dry-run, and the negations of no-create
and no-delete. -/
structure Config where
  dryRun : Bool
  shouldCreate : Bool
  shouldDelete : Bool
deriving DecidableEq, Repr

deriving instance DecidableEq for Except

/-- One observable step of the apply phase: in a dry run the action is
only reported; in a live run the request is sent and the client result is
reported. -/
inductive Event where
  | dryReport (a : Action)
  | attempted (a : Action) (req : HttpRequest) (res : Except ApiError Unit)
deriving DecidableEq, Repr

/-- The action an event reports or attempts. -/
def actionOf : Event → Action
  | .dryReport a => a
  | .attempted a _ _ => a

/-- Whether an event belongs to the delete phase. -/
def Event.isDeleteEv (ev : Event) : Bool :=
  (actionOf ev).isDelete

/-- The HTTP requests issued by a list of events: dry-run reports issue
none. -/
def eventCalls (evs : List Event) : List HttpRequest :=
  evs.filterMap (fun ev =>
    match ev with
    | .dryReport _ => none
    | .attempted _ req _ => some req)

/-- Execution of one computed action, mirroring the per-branch bodies of
the loops in src/main.rs: a dry run prints the action, a live run issues
the corresponding client call with the transport oracle's response. -/
def eventFor (cfg : Config) (oracle : HttpRequest → Response) (c : Client) : Action → Event
  | .create l =>
    if cfg.dryRun then .dryReport (.create l)
    else .attempted (.create l) (createRequest c l) (Client.create c l (oracle (createRequest c l)))
  | .update l =>
    if cfg.dryRun then .dryReport (.update l)
    else .attempted (.update l) (updateRequest c l) (Client.update c l (oracle (updateRequest c l)))
  | .delete l =>
    if cfg.dryRun then .dryReport (.delete l)
    else .attempted (.delete l) (deleteRequest c l) (Client.delete c l (oracle (deleteRequest c l)))

/-- The apply phase of src/main.rs lines 177-220: the create/update loop
over the template labels runs first (when creation is enabled), then the
delete loop over the existing labels (when deletion is enabled). Each loop
executes its decisions in input iteration order. -/
def applyPhase (cfg : Config) (oracle : HttpRequest → Response) (c : Client)
    (labels existing : List Label) : List Event :=
  (if cfg.shouldCreate then
    (createUpdateActions labels existing).map (eventFor cfg oracle c)
  else []) ++
  (if cfg.shouldDelete then
    (deleteActions labels existing).map (eventFor cfg oracle c)
  else [])

/-! ### Template destructuring and setup (src/main.rs, src/label.rs) -/

/-- One entry of a parsed YAML template: either a hash, whose name and
color keys may each be present as a string or not, or some other YAML
value. -/
inductive YamlItem where
  | hash (name : Option String) (color : Option String)
  | notHash
deriving DecidableEq, Repr

/-- Error enum from src/label.rs. -/
inductive LabelError where
  | missingColor
  | missingName
  | urlParseFailure
  | yamlItemNotHash
deriving DecidableEq, Repr

/-- get_name_and_color from src/main.rs: the entry must be a hash and
carry string values for name and color, name checked first. -/
def get_name_and_color : YamlItem → Except LabelError (String × String)
  | .hash name color =>
    match name with
    | none => .error .missingName
    | some n =>
      match color with
      | none => .error .missingColor
      | some c => .ok (n, c)
  | .notHash => .error .yamlItemNotHash

/-- Label::new from src/label.rs: the locator of a template label is built
by parsing the formatted collection url followed by the label's name. The
URL parser of the url crate is an external collaborator, passed in as
urlParse (it returns the normalised url text, or nothing on a parse
failure). The call site in src/main.rs passes the arguments after the
endpoint. -/
def Label.new (urlParse : String → Option String)
    (endpoint name color user repo : String) : Except LabelError Label :=
  match urlParse (endpoint ++ "/repos/" ++ user ++ "/" ++ repo ++ "/labels/" ++ name) with
  | none => .error .urlParseFailure
  | some url => .ok { color := color, name := name, url := url }

/-- get_labels from src/main.rs: destructure every template entry and
build a template label from it, stopping at the first failure. -/
def get_labels (urlParse : String → Option String)
    (template : List YamlItem) (endpoint user repo : String) : Except LabelError (List Label) :=
  template.mapM (fun item =>
    match get_name_and_color item with
    | .error e => .error e
    | .ok (name, color) => Label.new urlParse endpoint name color user repo)

/-- External collaborators and transport of one run: the file read result,
the YAML loader (returning the documents, each destructured by as_vec into
an optional item list), the URL parser, the response to the initial list
call and the transport oracle for the apply phase. -/
structure MainEnv where
  readFileRes : Except String String
  loadYaml : String → Except String (List (Option (List YamlItem)))
  urlParse : String → Option String
  listResponse : Response
  oracle : HttpRequest → Response

/-- Observable outcome of a run: process exit code, the fatal diagnostic
if one was printed, the apply-phase events, and every HTTP request issued
(the initial list call included). -/
structure RunResult where
  exitCode : Nat
  diag : Option String
  events : List Event
  calls : List HttpRequest
deriving Repr

/-- The main control flow of src/main.rs lines 128-221: each setup stage
(file read, YAML parse, non-empty document list, array-shaped document,
template destructuring, initial list call) exits with code 1 and a
diagnostic on failure; once setup succeeds the apply phase runs and the
process exits with code 0 whatever the per-action outcomes. -/
def ghlabelMain (env : MainEnv) (cfg : Config)
    (endpoint user repo token : String) : RunResult :=
  match env.readFileRes with
  | .error e => ⟨1, some ("Failed to read labels.yml: " ++ e), [], []⟩
  | .ok contents =>
    match env.loadYaml contents with
    | .error e => ⟨1, some ("Failed to parse YAML data: " ++ e), [], []⟩
    | .ok yaml =>
      match yaml with
      | [] => ⟨1, some "Expected labels.yml to have some data", [], []⟩
      | doc0 :: _ =>
        match doc0 with
        | none => ⟨1, some "Expect contents of labels.yml to be a single array", [], []⟩
        | some template =>
          match get_labels env.urlParse template endpoint user repo with
          | .error _ =>
            ⟨1, some "Invalid label! Each label must be a hash with the keys `name` and `color`",
              [], []⟩
          | .ok labels =>
            let c : Client := ⟨repo, token, user, endpoint⟩
            match Client.list c env.listResponse with
            | .error _ =>
              ⟨1, some "Error getting existing labels from the GitHub API", [],
                [listRequest c]⟩
            | .ok existing_labels =>
              let evs := applyPhase cfg env.oracle c labels existing_labels
              ⟨0, none, evs, listRequest c :: eventCalls evs⟩

/-! ### Applying an action set to a snapshot (for the idempotence claim) -/

/-- Modelled from the spec: the effect of one action on the remote label
collection, as the idempotence property describes it: creates are added,
updates recolor the labels bearing the action's name, deletes remove the
labels bearing the action's name. -/
def applyAction (s : List Label) : Action → List Label
  | .create d => s ++ [d]
  | .update d => s.map (fun e => if e.name == d.name then { e with color := d.color } else e)
  | .delete l => s.filter (fun e => !(e.name == l.name))

/-- Modelled from the spec: applying a whole action set in order. -/
def applyActions (s : List Label) (acts : List Action) : List Label :=
  acts.foldl applyAction s

/-- The labels of a collection bearing a given name, in order. -/
def filterName (n : String) (s : List Label) : List Label :=
  s.filter (fun e => e.name == n)

/-- Whether an action is an update addressed at name `n`. -/
def isUpdateNamed (n : String) : Action → Bool
  | .update dd => dd.name == n
  | _ => false

/-- The events of a trace that report or attempt an update for name `n`. -/
def updateEventsNamed (n : String) (evs : List Event) : List Event :=
  evs.filter (fun ev => isUpdateNamed n (actionOf ev))

/-! ### General list helper lemmas -/

theorem find?_eq_head?_filter {α : Type} (p : α → Bool) (s : List α) :
    s.find? p = (s.filter p).head? := by
  induction s with
  | nil => rfl
  | cons a t ih =>
    by_cases h : p a = true
    · rw [List.find?_cons_of_pos _ h, List.filter_cons_of_pos h]
      rfl
    · rw [List.find?_cons_of_neg _ (by simpa using h),
        List.filter_cons_of_neg (by simpa using h), ih]

theorem any_eq_find?_isSome {α : Type} (p : α → Bool) (s : List α) :
    s.any p = (s.find? p).isSome := by
  rw [Bool.eq_iff_iff]
  simp [List.any_eq_true, List.find?_isSome]

/-! ### Reconciler helper lemmas -/

theorem listContains_eq (s : List Label) (l : Label) :
    listContains s l = (s.find? (fun e => e.name == l.name)).isSome := by
  simp only [listContains, labelEq]
  exact any_eq_find?_isSome _ _

theorem cuAction_eq_create {existing : List Label} {label : Label}
    (h : listContains existing label = false) :
    cuAction existing label = some (.create label) := by
  simp [cuAction, h]

theorem cuAction_of_find? {existing : List Label} {label e0 : Label}
    (h : existing.find? (fun e => e.name == label.name) = some e0) :
    cuAction existing label =
      if label.color ≠ e0.color then some (.update label) else none := by
  have hc : listContains existing label = true := by
    rw [listContains_eq, h]
    rfl
  simp [cuAction, hc, h]

theorem cuAction_cases (existing : List Label) (label : Label) :
    (listContains existing label = false ∧ cuAction existing label = some (.create label)) ∨
    (∃ e0, existing.find? (fun e => e.name == label.name) = some e0 ∧
      ((label.color ≠ e0.color ∧ cuAction existing label = some (.update label)) ∨
       (label.color = e0.color ∧ cuAction existing label = none))) := by
  by_cases hc : listContains existing label = true
  · rw [listContains_eq] at hc
    obtain ⟨e0, he0⟩ := Option.isSome_iff_exists.mp hc
    refine Or.inr ⟨e0, he0, ?_⟩
    by_cases hcol : label.color = e0.color
    · exact Or.inr ⟨hcol, by simp [cuAction_of_find? he0, hcol]⟩
    · exact Or.inl ⟨hcol, by simp [cuAction_of_find? he0, hcol]⟩
  · have hcf : listContains existing label = false := by simpa using hc
    exact Or.inl ⟨hcf, cuAction_eq_create hcf⟩

theorem cuAction_shape {existing : List Label} {label : Label} {a : Action}
    (h : cuAction existing label = some a) :
    a = .create label ∨ a = .update label := by
  rcases cuAction_cases existing label with ⟨_, h'⟩ | ⟨e0, _, ⟨_, h'⟩ | ⟨_, h'⟩⟩ <;>
    rw [h'] at h
  · exact Or.inl (Option.some_injective _ h).symm
  · exact Or.inr (Option.some_injective _ h).symm
  · exact absurd h (by simp)

theorem mem_createUpdateActions {labels existing : List Label} {a : Action}
    (h : a ∈ createUpdateActions labels existing) :
    ∃ l, l ∈ labels ∧ cuAction existing l = some a := by
  simpa [createUpdateActions, List.mem_filterMap] using h

theorem createUpdateActions_not_isDelete {labels existing : List Label} {a : Action}
    (h : a ∈ createUpdateActions labels existing) : a.isDelete = false := by
  obtain ⟨l, _, hl⟩ := mem_createUpdateActions h
  rcases cuAction_shape hl with rfl | rfl <;> rfl

theorem mem_deleteActions {labels existing : List Label} {a : Action}
    (h : a ∈ deleteActions labels existing) :
    ∃ e, e ∈ existing ∧ listContains labels e = false ∧ a = .delete e := by
  simp only [deleteActions, List.mem_map, List.mem_filter] at h
  obtain ⟨e, ⟨he, hne⟩, rfl⟩ := h
  exact ⟨e, he, by simpa using hne, rfl⟩

theorem deleteActions_isDelete {labels existing : List Label} {a : Action}
    (h : a ∈ deleteActions labels existing) : a.isDelete = true := by
  obtain ⟨e, _, _, rfl⟩ := mem_deleteActions h
  rfl

/-! ### Executor helper lemmas -/

theorem actionOf_eventFor (cfg : Config) (oracle : HttpRequest → Response) (c : Client)
    (a : Action) : actionOf (eventFor cfg oracle c a) = a := by
  cases a <;> by_cases h : cfg.dryRun = true <;> simp [eventFor, actionOf, h]

theorem applyPhase_actions (cfg : Config) (oracle : HttpRequest → Response) (c : Client)
    (labels existing : List Label) :
    (applyPhase cfg oracle c labels existing).map actionOf =
      (if cfg.shouldCreate then createUpdateActions labels existing else []) ++
      (if cfg.shouldDelete then deleteActions labels existing else []) := by
  unfold applyPhase
  cases hc : cfg.shouldCreate <;> cases hd : cfg.shouldDelete <;>
    simp [List.map_map, Function.comp_def, actionOf_eventFor]

theorem eventCalls_map_eventFor_dry (cfg : Config) (oracle : HttpRequest → Response)
    (c : Client) (acts : List Action) (h : cfg.dryRun = true) :
    eventCalls (acts.map (eventFor cfg oracle c)) = [] := by
  unfold eventCalls
  rw [List.filterMap_map]
  apply List.filterMap_eq_nil_iff.mpr
  intro a _
  cases a <;> simp [eventFor, h, Function.comp_def]

theorem eventCalls_applyPhase_dry (cfg : Config) (oracle : HttpRequest → Response)
    (c : Client) (labels existing : List Label) (h : cfg.dryRun = true) :
    eventCalls (applyPhase cfg oracle c labels existing) = [] := by
  unfold applyPhase eventCalls
  rw [List.filterMap_append]
  have h1 := eventCalls_map_eventFor_dry cfg oracle c (createUpdateActions labels existing) h
  have h2 := eventCalls_map_eventFor_dry cfg oracle c (deleteActions labels existing) h
  unfold eventCalls at h1 h2
  cases cfg.shouldCreate <;> cases cfg.shouldDelete <;> simp [h1, h2]

theorem specCuAction_eq_cuAction (existing : List Label) (d : Label)
    (hnodup : (existing.map Label.name).Nodup) :
    cuAction existing d = specCuAction existing d := by
  rcases cuAction_cases existing d with ⟨hcf, heq⟩ | ⟨e0, he0, hcase⟩
  · rw [heq]
    simp only [listContains, labelEq] at hcf
    simp [specCuAction, hcf]
  · have hmem : e0 ∈ existing := List.mem_of_find?_eq_some he0
    have hname : (e0.name == d.name) = true := by
      have h' := List.find?_some he0
      simpa using h'
    have houter : existing.any (fun e => e.name == d.name) = true :=
      List.any_eq_true.mpr ⟨e0, hmem, hname⟩
    rcases hcase with ⟨hne, heq⟩ | ⟨hcol, heq⟩
    · rw [heq]
      have hinner : existing.any (fun e => e.name == d.name && e.color != d.color) = true :=
        List.any_eq_true.mpr ⟨e0, hmem, by
          simp [hname, bne_iff_ne]
          exact fun h => hne h.symm⟩
      simp [specCuAction, houter, hinner]
    · rw [heq]
      have hinner : existing.any (fun e => e.name == d.name && e.color != d.color) = false := by
        rw [Bool.eq_false_iff]
        intro hany
        obtain ⟨e, hmem', hp⟩ := List.any_eq_true.mp hany
        have hname' : e.name = d.name := by
          have := (Bool.and_eq_true _ _).mp hp
          exact beq_iff_eq.mp this.1
        have hcne : e.color ≠ d.color := by
          have := (Bool.and_eq_true _ _).mp hp
          exact bne_iff_ne.mp this.2
        have : e = e0 :=
          List.inj_on_of_nodup_map hnodup hmem' hmem
            (by rw [hname', beq_iff_eq.mp hname])
        rw [this] at hcne
        exact hcne hcol.symm
      simp [specCuAction, houter, hinner]

theorem deleteFilter_eq (labels : List Label) (e : Label) :
    (!(listContains labels e)) = labels.all (fun d => d.name != e.name) := by
  rw [Bool.eq_iff_iff]
  simp [listContains, labelEq, List.any_eq_true, List.all_eq_true, bne_iff_ne]

/-- C1: the reconciliation pass agrees with the spec's reference algorithm:
create/update decisions for each desired label in template order (update
when an existing label shares the name and differs in color, nothing when
colors agree, create when the name is absent), then deletes for existing
labels whose name matches no desired label, in the existing collection's
order. The hypothesis is the spec's data-model invariant that names are
unique identifiers within the existing collection. -/
theorem c1_reconcile_matches_spec (labels existing : List Label)
    (hnodup : (existing.map Label.name).Nodup) :
    reconcile labels existing = specReconcile labels existing := by
  unfold reconcile specReconcile createUpdateActions deleteActions
  congr 1
  · exact List.filterMap_congr (fun d _ => specCuAction_eq_cuAction existing d hnodup)
  · congr 1
    exact List.filter_congr (fun e _ => deleteFilter_eq labels e)

/-- Witness for C1 at a concrete input: one desired and one existing label
sharing a name with different colors. -/
theorem c1_reconcile_matches_spec_witness :
    ((([⟨"000000", "bug", "url1"⟩] : List Label).map Label.name).Nodup) ∧
    reconcile [⟨"fc2929", "bug", "u"⟩] [⟨"000000", "bug", "url1"⟩] =
      specReconcile [⟨"fc2929", "bug", "u"⟩] [⟨"000000", "bug", "url1"⟩] :=
  ⟨by decide, c1_reconcile_matches_spec _ _ (by decide)⟩

/-- C10: duplicate names in the template are neither rejected nor
deduplicated: the create/update loop handles each occurrence independently
against the same snapshot (head decomposition), a template with two
same-name entries destructures successfully, and two same-name entries
absent from the existing set produce two create actions. -/
theorem c10_duplicates_processed_independently :
    (∀ (d : Label) (rest existing : List Label),
      createUpdateActions (d :: rest) existing =
        (cuAction existing d).toList ++ createUpdateActions rest existing) ∧
    (get_labels (fun s => some s)
        [.hash (some "dup") (some "111111"), .hash (some "dup") (some "222222")]
        "https://api.github.com" "u" "r" =
      .ok [⟨"111111", "dup", "https://api.github.com/repos/u/r/labels/dup"⟩,
           ⟨"222222", "dup", "https://api.github.com/repos/u/r/labels/dup"⟩]) ∧
    (reconcile [⟨"111111", "dup", "u1"⟩, ⟨"222222", "dup", "u2"⟩] [] =
      [.create ⟨"111111", "dup", "u1"⟩, .create ⟨"222222", "dup", "u2"⟩]) := by
  refine ⟨?_, by decide, by decide⟩
  intro d rest existing
  unfold createUpdateActions
  rw [List.filterMap_cons]
  cases h : cuAction existing d <;> simp [h]

/-- C3: in every run the apply phase is a full barrier: every create or
update event precedes every delete event, the non-delete events are
exactly the create/update decisions in template order (when creation is
enabled), and the delete events are exactly the deletes in the existing
collection's fetched order (when deletion is enabled). -/
theorem barrier_append {as bs : List Event}
    (ha : ∀ ev ∈ as, ev.isDeleteEv = false) (hb : ∀ ev ∈ bs, ev.isDeleteEv = true) :
    ∀ i j (hi : i < (as ++ bs).length) (hj : j < (as ++ bs).length), i ≤ j →
      ((as ++ bs).get ⟨i, hi⟩).isDeleteEv = true →
      ((as ++ bs).get ⟨j, hj⟩).isDeleteEv = true := by
  intro i j hi hj hij hdi
  have hilen : as.length ≤ i := by
    by_contra hlt
    push_neg at hlt
    rw [List.get_append_left as bs hlt] at hdi
    have := ha _ (List.get_mem as i hlt)
    rw [this] at hdi
    exact Bool.false_ne_true hdi
  have hjlen : as.length ≤ j := le_trans hilen hij
  have hjlt : j - as.length < bs.length := by
    rw [List.length_append] at hj
    omega
  rw [List.get_append_right as bs hjlen]
  exact hb _ (List.get_mem bs _ hjlt)

theorem cuPhaseEvents_not_delete (cfg : Config) (oracle : HttpRequest → Response)
    (c : Client) (labels existing : List Label) :
    ∀ ev ∈ (if cfg.shouldCreate then
      (createUpdateActions labels existing).map (eventFor cfg oracle c) else []),
      ev.isDeleteEv = false := by
  intro ev hev
  by_cases hc : cfg.shouldCreate = true
  · rw [if_pos hc] at hev
    obtain ⟨a, ha, rfl⟩ := List.mem_map.mp hev
    simp [Event.isDeleteEv, actionOf_eventFor, createUpdateActions_not_isDelete ha]
  · rw [if_neg hc] at hev
    simp at hev

theorem delPhaseEvents_delete (cfg : Config) (oracle : HttpRequest → Response)
    (c : Client) (labels existing : List Label) :
    ∀ ev ∈ (if cfg.shouldDelete then
      (deleteActions labels existing).map (eventFor cfg oracle c) else []),
      ev.isDeleteEv = true := by
  intro ev hev
  by_cases hd : cfg.shouldDelete = true
  · rw [if_pos hd] at hev
    obtain ⟨a, ha, rfl⟩ := List.mem_map.mp hev
    simp [Event.isDeleteEv, actionOf_eventFor, deleteActions_isDelete ha]
  · rw [if_neg hd] at hev
    simp at hev

/-- C3: in every run the apply phase is a full barrier: every create or
update event precedes every delete event, the non-delete events are
exactly the create/update decisions in template order (when creation is
enabled), and the delete events are exactly the deletes in the existing
collection's fetched order (when deletion is enabled). -/
theorem c3_barrier_and_order (cfg : Config) (oracle : HttpRequest → Response)
    (c : Client) (labels existing : List Label) (tr : List Event)
    (htr : tr = applyPhase cfg oracle c labels existing) :
    (∀ i j (hi : i < tr.length) (hj : j < tr.length), i ≤ j →
      (tr.get ⟨i, hi⟩).isDeleteEv = true → (tr.get ⟨j, hj⟩).isDeleteEv = true) ∧
    ((tr.filter (fun ev => !ev.isDeleteEv)).map actionOf =
      (if cfg.shouldCreate then createUpdateActions labels existing else [])) ∧
    ((tr.filter (fun ev => ev.isDeleteEv)).map actionOf =
      (if cfg.shouldDelete then deleteActions labels existing else [])) := by
  subst htr
  have hcu := cuPhaseEvents_not_delete cfg oracle c labels existing
  have hdel := delPhaseEvents_delete cfg oracle c labels existing
  refine ⟨barrier_append hcu hdel, ?_, ?_⟩
  · unfold applyPhase
    rw [List.filter_append, List.filter_eq_self.mpr (by intro ev hev; simp [hcu ev hev]),
      List.filter_eq_nil_iff.mpr (by intro ev hev; simp [hdel ev hev]), List.append_nil]
    by_cases hc : cfg.shouldCreate = true
    · rw [if_pos hc, if_pos hc]
      simp [List.map_map, Function.comp_def, actionOf_eventFor]
    · rw [if_neg hc, if_neg hc]
      rfl
  · unfold applyPhase
    rw [List.filter_append, List.filter_eq_nil_iff.mpr (by intro ev hev; simp [hcu ev hev]),
      List.filter_eq_self.mpr (by intro ev hev; simp [hdel ev hev]), List.nil_append]
    by_cases hd : cfg.shouldDelete = true
    · rw [if_pos hd, if_pos hd]
      simp [List.map_map, Function.comp_def, actionOf_eventFor]
    · rw [if_neg hd, if_neg hd]
      rfl

/-- Witness for C3 at a concrete input: one create, two deletes, live run. -/
theorem c3_barrier_and_order_witness :
    ((applyPhase ⟨false, true, true⟩ (fun _ => ⟨200, ""⟩) ⟨"r", "t", "u", "e"⟩
        [⟨"fc2929", "bug", "u1"⟩]
        [⟨"aaaaaa", "old1", "u2"⟩, ⟨"bbbbbb", "old2", "u3"⟩]).get
      ⟨2, by decide⟩).isDeleteEv = true := by
  have h := c3_barrier_and_order ⟨false, true, true⟩ (fun _ => ⟨200, ""⟩) ⟨"r", "t", "u", "e"⟩
    [⟨"fc2929", "bug", "u1"⟩] [⟨"aaaaaa", "old1", "u2"⟩, ⟨"bbbbbb", "old2", "u3"⟩] _ rfl
  exact h.1 1 2 (by decide) (by decide) (by decide) (by decide)

/-- C5 (amended): a dry run computes exactly the same action sequence as a
live run with the same inputs and toggles, and issues no mutating HTTP
call: every request a dry run sends is a GET (the one initial list call).
The claim's stronger reading, that a dry run issues zero remote calls, is
refuted by the counterexample below. -/
theorem c5_dry_run_same_actions_no_mutating_calls (env : MainEnv) (sc sd : Bool)
    (endpoint user repo token : String) :
    ((ghlabelMain env ⟨true, sc, sd⟩ endpoint user repo token).events.map actionOf =
      (ghlabelMain env ⟨false, sc, sd⟩ endpoint user repo token).events.map actionOf) ∧
    (∀ q ∈ (ghlabelMain env ⟨true, sc, sd⟩ endpoint user repo token).calls,
      q.method = HttpMethod.get) := by
  cases hr : env.readFileRes with
  | error e => simp [ghlabelMain, hr]
  | ok contents =>
    cases hy : env.loadYaml contents with
    | error e => simp [ghlabelMain, hr, hy]
    | ok yaml =>
      cases yaml with
      | nil => simp [ghlabelMain, hr, hy]
      | cons doc0 docs =>
        cases doc0 with
        | none => simp [ghlabelMain, hr, hy]
        | some template =>
          cases hg : get_labels env.urlParse template endpoint user repo with
          | error e => simp [ghlabelMain, hr, hy, hg]
          | ok labels =>
            cases hl : Client.list ⟨repo, token, user, endpoint⟩ env.listResponse with
            | error e => simp [ghlabelMain, hr, hy, hg, hl, listRequest]
            | ok existing_labels =>
              simp only [ghlabelMain, hr, hy, hg, hl]
              refine ⟨?_, ?_⟩
              · rw [applyPhase_actions, applyPhase_actions]
              · intro q hq
                simp only [List.mem_cons] at hq
                rcases hq with rfl | hq
                · rfl
                · rw [eventCalls_applyPhase_dry ⟨true, sc, sd⟩ env.oracle
                    ⟨repo, token, user, endpoint⟩ labels existing_labels rfl] at hq
                  simp at hq

/-- Counterexample to C5 as stated: a dry run with a well-formed setup
still issues one remote HTTP call, the initial GET of the existing labels,
so its call list is not empty. -/
theorem c5_counterexample :
    ((ghlabelMain ⟨.ok "tpl", fun _ => .ok [some []], fun s => some s, ⟨200, "[]"⟩,
        fun _ => ⟨200, ""⟩⟩ ⟨true, true, true⟩ "https://api.github.com" "u" "r" "t").calls
      = [⟨HttpMethod.get, "https://api.github.com/repos/u/r/labels", none⟩]) ∧
    ((ghlabelMain ⟨.ok "tpl", fun _ => .ok [some []], fun s => some s, ⟨200, "[]"⟩,
        fun _ => ⟨200, ""⟩⟩ ⟨true, true, true⟩ "https://api.github.com" "u" "r" "t").calls
      ≠ []) :=
  ⟨rfl, by decide⟩

/-- Witness for C5 at a concrete input: a dry run over a one-label
template whose only call is the list GET. -/
theorem c5_dry_run_witness :
    ((ghlabelMain ⟨.ok "tpl", fun _ => .ok [some [.hash (some "bug") (some "fc2929")]],
        fun s => some s, ⟨200, "[]"⟩, fun _ => ⟨200, ""⟩⟩
        ⟨true, true, true⟩ "https://api.github.com" "u" "r" "t").events.map actionOf =
      (ghlabelMain ⟨.ok "tpl", fun _ => .ok [some [.hash (some "bug") (some "fc2929")]],
        fun s => some s, ⟨200, "[]"⟩, fun _ => ⟨200, ""⟩⟩
        ⟨false, true, true⟩ "https://api.github.com" "u" "r" "t").events.map actionOf) ∧
    HttpMethod.get = HttpMethod.get :=
  ⟨(c5_dry_run_same_actions_no_mutating_calls
      ⟨.ok "tpl", fun _ => .ok [some [.hash (some "bug") (some "fc2929")]],
        fun s => some s, ⟨200, "[]"⟩, fun _ => ⟨200, ""⟩⟩
      true true "https://api.github.com" "u" "r" "t").1,
    (c5_dry_run_same_actions_no_mutating_calls
      ⟨.ok "tpl", fun _ => .ok [some [.hash (some "bug") (some "fc2929")]],
        fun s => some s, ⟨200, "[]"⟩, fun _ => ⟨200, ""⟩⟩
      true true "https://api.github.com" "u" "r" "t").2
      ⟨HttpMethod.get, "https://api.github.com/repos/u/r/labels", none⟩ (by decide)⟩

/-- C6: every setup-stage failure (file read, YAML parse, empty document
list, non-array document, malformed template entry, initial list call) is
fatal: exit code 1, a diagnostic, and no apply-phase event; once setup
succeeds the process exits with code 0 and no diagnostic, and the full
computed action list is attempted whatever the transport returns for the
individual actions. -/
theorem c6_setup_fatal_actions_recovered (env : MainEnv) (cfg : Config)
    (endpoint user repo token : String) :
    (∀ e, env.readFileRes = .error e →
      (ghlabelMain env cfg endpoint user repo token).exitCode = 1 ∧
      (ghlabelMain env cfg endpoint user repo token).diag.isSome = true ∧
      (ghlabelMain env cfg endpoint user repo token).events = []) ∧
    (∀ contents e, env.readFileRes = .ok contents → env.loadYaml contents = .error e →
      (ghlabelMain env cfg endpoint user repo token).exitCode = 1 ∧
      (ghlabelMain env cfg endpoint user repo token).diag.isSome = true ∧
      (ghlabelMain env cfg endpoint user repo token).events = []) ∧
    (∀ contents, env.readFileRes = .ok contents → env.loadYaml contents = .ok [] →
      (ghlabelMain env cfg endpoint user repo token).exitCode = 1 ∧
      (ghlabelMain env cfg endpoint user repo token).diag.isSome = true ∧
      (ghlabelMain env cfg endpoint user repo token).events = []) ∧
    (∀ contents docs, env.readFileRes = .ok contents →
      env.loadYaml contents = .ok (none :: docs) →
      (ghlabelMain env cfg endpoint user repo token).exitCode = 1 ∧
      (ghlabelMain env cfg endpoint user repo token).diag.isSome = true ∧
      (ghlabelMain env cfg endpoint user repo token).events = []) ∧
    (∀ contents template docs e, env.readFileRes = .ok contents →
      env.loadYaml contents = .ok (some template :: docs) →
      get_labels env.urlParse template endpoint user repo = .error e →
      (ghlabelMain env cfg endpoint user repo token).exitCode = 1 ∧
      (ghlabelMain env cfg endpoint user repo token).diag.isSome = true ∧
      (ghlabelMain env cfg endpoint user repo token).events = []) ∧
    (∀ contents template docs labels e, env.readFileRes = .ok contents →
      env.loadYaml contents = .ok (some template :: docs) →
      get_labels env.urlParse template endpoint user repo = .ok labels →
      Client.list ⟨repo, token, user, endpoint⟩ env.listResponse = .error e →
      (ghlabelMain env cfg endpoint user repo token).exitCode = 1 ∧
      (ghlabelMain env cfg endpoint user repo token).diag.isSome = true ∧
      (ghlabelMain env cfg endpoint user repo token).events = []) ∧
    (∀ contents template docs labels existing_labels, env.readFileRes = .ok contents →
      env.loadYaml contents = .ok (some template :: docs) →
      get_labels env.urlParse template endpoint user repo = .ok labels →
      Client.list ⟨repo, token, user, endpoint⟩ env.listResponse = .ok existing_labels →
      (ghlabelMain env cfg endpoint user repo token).exitCode = 0 ∧
      (ghlabelMain env cfg endpoint user repo token).diag = none ∧
      (ghlabelMain env cfg endpoint user repo token).events.map actionOf =
        (if cfg.shouldCreate then createUpdateActions labels existing_labels else []) ++
        (if cfg.shouldDelete then deleteActions labels existing_labels else [])) := by
  refine ⟨?_, ?_, ?_, ?_, ?_, ?_, ?_⟩
  · intro e h
    simp [ghlabelMain, h]
  · intro contents e h1 h2
    simp [ghlabelMain, h1, h2]
  · intro contents h1 h2
    simp [ghlabelMain, h1, h2]
  · intro contents docs h1 h2
    simp [ghlabelMain, h1, h2]
  · intro contents template docs e h1 h2 h3
    simp [ghlabelMain, h1, h2, h3]
  · intro contents template docs labels e h1 h2 h3 h4
    simp [ghlabelMain, h1, h2, h3, h4]
  · intro contents template docs labels existing_labels h1 h2 h3 h4
    refine ⟨?_, ?_, ?_⟩
    · simp [ghlabelMain, h1, h2, h3, h4]
    · simp [ghlabelMain, h1, h2, h3, h4]
    · simp only [ghlabelMain, h1, h2, h3, h4]
      exact applyPhase_actions _ _ _ _ _

/-- Witness for C6 at a concrete input: a well-formed setup whose single
create action fails with a 500 response; the run still exits 0 and the
action was attempted. -/
theorem c6_setup_fatal_actions_recovered_witness :
    (ghlabelMain ⟨.ok "tpl", fun _ => .ok [some [.hash (some "bug") (some "fc2929")]],
        fun s => some s, ⟨200, "[]"⟩, fun _ => ⟨500, "boom"⟩⟩
      ⟨false, true, true⟩ "https://api.github.com" "u" "r" "t").exitCode = 0 ∧
    (ghlabelMain ⟨.ok "tpl", fun _ => .ok [some [.hash (some "bug") (some "fc2929")]],
        fun s => some s, ⟨200, "[]"⟩, fun _ => ⟨500, "boom"⟩⟩
      ⟨false, true, true⟩ "https://api.github.com" "u" "r" "t").diag = none :=
  ⟨((c6_setup_fatal_actions_recovered
      ⟨.ok "tpl", fun _ => .ok [some [.hash (some "bug") (some "fc2929")]],
        fun s => some s, ⟨200, "[]"⟩, fun _ => ⟨500, "boom"⟩⟩
      ⟨false, true, true⟩ "https://api.github.com" "u" "r" "t").2.2.2.2.2.2
      "tpl" [.hash (some "bug") (some "fc2929")] []
      [⟨"fc2929", "bug", "https://api.github.com/repos/u/r/labels/bug"⟩] []
      rfl rfl rfl rfl).1,
    ((c6_setup_fatal_actions_recovered
      ⟨.ok "tpl", fun _ => .ok [some [.hash (some "bug") (some "fc2929")]],
        fun s => some s, ⟨200, "[]"⟩, fun _ => ⟨500, "boom"⟩⟩
      ⟨false, true, true⟩ "https://api.github.com" "u" "r" "t").2.2.2.2.2.2
      "tpl" [.hash (some "bug") (some "fc2929")] []
      [⟨"fc2929", "bug", "https://api.github.com/repos/u/r/labels/bug"⟩] []
      rfl rfl rfl rfl).2.1⟩

/-- C4 (amended): create, update and delete succeed exactly on their
canonical statuses (201, 200, 204 respectively) and on any other status
return a NotOk error carrying the response body text; list fails on any
non-200 status with a NotOk error carrying the body, and on 200 succeeds
exactly when the body decodes as the expected label array. The claim's
assertion that list succeeds exactly on status 200 is refuted by the
counterexample (status 200 with an undecodable body). -/
theorem c4_status_contract (c : Client) (l : Label) (resp : Response) :
    (Client.create c l resp = .ok () ↔ resp.status = 201) ∧
    (resp.status ≠ 201 → Client.create c l resp = .error (.notOk resp.body)) ∧
    (Client.update c l resp = .ok () ↔ resp.status = 200) ∧
    (resp.status ≠ 200 → Client.update c l resp = .error (.notOk resp.body)) ∧
    (Client.delete c l resp = .ok () ↔ resp.status = 204) ∧
    (resp.status ≠ 204 → Client.delete c l resp = .error (.notOk resp.body)) ∧
    (resp.status ≠ 200 → Client.list c resp = .error (.notOk resp.body)) ∧
    (∀ ls, Client.list c resp = .ok ls ↔
      (resp.status = 200 ∧ decodeLabels resp.body = .ok ls)) := by
  refine ⟨?_, ?_, ?_, ?_, ?_, ?_, ?_, ?_⟩
  · by_cases h : resp.status = 201 <;> simp [Client.create, h]
  · intro h
    simp [Client.create, h]
  · by_cases h : resp.status = 200 <;> simp [Client.update, h]
  · intro h
    simp [Client.update, h]
  · by_cases h : resp.status = 204 <;> simp [Client.delete, h]
  · intro h
    simp [Client.delete, h]
  · intro h
    simp [Client.list, h]
  · intro ls
    by_cases h : resp.status = 200
    · cases hd : decodeLabels resp.body <;> simp [Client.list, h, hd, eq_comm]
    · simp [Client.list, h]

/-- Counterexample to C4 as stated: the list operation does not succeed on
its canonical status 200 when the body fails to decode. -/
theorem c4_counterexample :
    ((⟨200, "nope"⟩ : Response).status = 200) ∧
    Client.list ⟨"r", "t", "u", "e"⟩ ⟨200, "nope"⟩ =
      .error (.json .parseError) :=
  ⟨rfl, rfl⟩

/-- Witness for C4 at concrete responses: a create failing on 500 carries
the body, and a create on 201 succeeds. -/
theorem c4_status_contract_witness :
    Client.create ⟨"r", "t", "u", "e"⟩ ⟨"fc2929", "bug", "url"⟩ ⟨500, "boom"⟩ =
      .error (.notOk "boom") ∧
    Client.create ⟨"r", "t", "u", "e"⟩ ⟨"fc2929", "bug", "url"⟩ ⟨201, ""⟩ = .ok () :=
  ⟨(c4_status_contract ⟨"r", "t", "u", "e"⟩ ⟨"fc2929", "bug", "url"⟩ ⟨500, "boom"⟩).2.1
      (by decide),
    (c4_status_contract ⟨"r", "t", "u", "e"⟩ ⟨"fc2929", "bug", "url"⟩ ⟨201, ""⟩).1.mpr rfl⟩

/-- C8 (amended): a non-OK status makes list return a NotOk error that
carries the raw response body; a 200 response whose body fails to decode
as the expected array shape makes list return a Json decode error, and
that error does not carry the raw response body (it carries only the
decoder diagnostic). -/
theorem c8_list_error_payloads (c : Client) (resp : Response) (e : DecoderError) :
    (resp.status ≠ 200 →
      Client.list c resp = .error (.notOk resp.body) ∧
      ApiError.responseBody (.notOk resp.body) = some resp.body) ∧
    (resp.status = 200 → decodeLabels resp.body = .error e →
      Client.list c resp = .error (.json e) ∧
      ApiError.responseBody (.json e) = none) := by
  constructor
  · intro h
    exact ⟨by simp [Client.list, h], rfl⟩
  · intro h hd
    exact ⟨by simp [Client.list, h, hd], rfl⟩

/-- Counterexample to C8 as stated: on a 200 response whose body fails to
parse, the error returned is a Json decoder error and carries no response
body at all, while the claim requires an error carrying the raw body. -/
theorem c8_counterexample :
    Client.list ⟨"r", "t", "u", "e"⟩ ⟨200, "x"⟩ = .error (.json .parseError) ∧
    ApiError.responseBody (.json .parseError) = none :=
  ⟨rfl, rfl⟩

/-- Witness for C8 at a concrete response: a 500 whose error carries the
body, and a 200 non-parsing body whose error carries none. -/
theorem c8_list_error_payloads_witness :
    (Client.list ⟨"r", "t", "u", "e"⟩ ⟨500, "oops"⟩ = .error (.notOk "oops") ∧
      ApiError.responseBody (.notOk "oops") = some "oops") ∧
    (Client.list ⟨"r", "t", "u", "e"⟩ ⟨200, "bad"⟩ = .error (.json .parseError) ∧
      ApiError.responseBody (.json .parseError) = none) :=
  ⟨(c8_list_error_payloads ⟨"r", "t", "u", "e"⟩ ⟨500, "oops"⟩ .parseError).1 (by decide),
    (c8_list_error_payloads ⟨"r", "t", "u", "e"⟩ ⟨200, "bad"⟩ .parseError).2 rfl rfl⟩

theorem jsonSafeChar_spec {ch : Char} (h : jsonSafeChar ch = true) :
    ¬(ch = '"') ∧ ¬(ch = '\\') ∧ ¬(ch.toNat < 32) := by
  simp only [jsonSafeChar, Bool.and_eq_true, decide_eq_true_eq] at h
  obtain ⟨⟨h1, h2⟩, h3⟩ := h
  exact ⟨by simpa using h1, by simpa using h2, by omega⟩

theorem strBodyLoop_safe (cs rest : List Char)
    (h : ∀ ch ∈ cs, jsonSafeChar ch = true) :
    strBodyLoop false (cs ++ '"' :: rest) = some (cs, rest) := by
  induction cs with
  | nil => simp [strBodyLoop]
  | cons ch t ih =>
    obtain ⟨h1, h2, h3⟩ := jsonSafeChar_spec (h ch (List.mem_cons_self ch t))
    rw [List.cons_append]
    rw [strBodyLoop]
    simp only [if_neg h1, if_neg h2, if_neg h3]
    rw [ih (fun x hx => h x (List.mem_cons_of_mem _ hx))]

theorem stringEta (s : String) : String.mk s.data = s := rfl

theorem parseJsonStringTok_safe (s : String) (rest : List Char)
    (h : jsonSafe s = true) :
    parseJsonStringTok ('"' :: (s.data ++ '"' :: rest)) = some (s, rest) := by
  have hb := strBodyLoop_safe s.data rest (by simpa [jsonSafe, List.all_eq_true] using h)
  simp [parseJsonStringTok, expectChar, hb]

theorem to_json_string_data (l : Label) :
    (to_json_string l).data =
      '\x7b' :: '"' :: 'n' :: 'a' :: 'm' :: 'e' :: '"' :: ':' :: ' ' :: '"' ::
        (l.name.data ++ ('"' :: ',' :: '"' :: 'c' :: 'o' :: 'l' :: 'o' :: 'r' :: '"' :: ':' :: '"' ::
          (l.color.data ++ ['"', '\x7d']))) := by
  unfold to_json_string
  rw [String.data_append, String.data_append, String.data_append, String.data_append]
  simp only [List.append_assoc]
  rfl

/-- C9 (amended): create posts to the collection endpoint of the form
endpoint/repos/user/repo/labels, succeeds exactly on the Created status,
and its body is the direct interpolation of name and color into a JSON
object template; when name and color need no JSON escaping (no quote, no
backslash, no control character) the body is a valid JSON object with
exactly the keys name and color bound to the label's name and color. For
values needing escaping the body can be malformed, refuting the claim's
unconditional validity (see the counterexample). -/
theorem c9_create_request_shape (c : Client) (l : Label) :
    (createRequest c l = ⟨.post,
      c.endpoint ++ "/repos/" ++ c.user ++ "/" ++ c.repo ++ "/labels",
      some (to_json_string l)⟩) ∧
    (∀ resp, Client.create c l resp = .ok () ↔ resp.status = 201) ∧
    (jsonSafe l.name = true → jsonSafe l.color = true →
      jsonObjectFields (to_json_string l) = some [("name", l.name), ("color", l.color)]) := by
  refine ⟨rfl, ?_, ?_⟩
  · intro resp
    by_cases h : resp.status = 201 <;> simp [Client.create, h]
  · intro hn hc
    have hbn := strBodyLoop_safe l.name.data
      (',' :: '"' :: 'c' :: 'o' :: 'l' :: 'o' :: 'r' :: '"' :: ':' :: '"' ::
        (l.color.data ++ ['"', '\x7d']))
      (by simpa [jsonSafe, List.all_eq_true] using hn)
    have hbc := strBodyLoop_safe l.color.data ['\x7d']
      (by simpa [jsonSafe, List.all_eq_true] using hc)
    unfold jsonObjectFields
    rw [to_json_string_data]
    simp [skipWs, isWsChar, expectChar, parseJsonStringTok, strBodyLoop, escChar,
      hbn, hbc, stringEta]

/-- Counterexample to C9 as stated: a label whose name contains a double
quote produces a request body that is not a JSON object at all, let alone
one with the keys name and color bound to the label's fields. -/
theorem c9_counterexample :
    jsonObjectFields (to_json_string ⟨"fc2929", "a\"b", "u"⟩) = none ∧
    some [("name", "a\"b"), ("color", "fc2929")] ≠
      (none : Option (List (String × String))) :=
  ⟨rfl, by decide⟩

/-- Witness for C9 at a concrete label with escape-free name and color. -/
theorem c9_create_request_shape_witness :
    jsonObjectFields (to_json_string ⟨"fc2929", "bug", "u"⟩) =
      some [("name", "bug"), ("color", "fc2929")] :=
  (c9_create_request_shape ⟨"r", "t", "u", "e"⟩ ⟨"fc2929", "bug", "u"⟩).2.2
    (by decide) (by decide)

theorem exists_decomp_of_mem_nodup {labels : List Label} {d : Label}
    (hnodup : (labels.map Label.name).Nodup) (hd : d ∈ labels) :
    ∃ L1 L2, labels = L1 ++ d :: L2 ∧
      (∀ x ∈ L1, x.name ≠ d.name) ∧ (∀ x ∈ L2, x.name ≠ d.name) := by
  obtain ⟨L1, L2, rfl⟩ := List.append_of_mem hd
  rw [List.map_append, List.map_cons] at hnodup
  obtain ⟨h1, h2, hdisj⟩ := List.nodup_append.mp hnodup
  refine ⟨L1, L2, rfl, ?_, ?_⟩
  · intro x hx heq
    exact hdisj (List.mem_map.mpr ⟨x, hx, heq⟩) (List.mem_cons_self _ _)
  · intro x hx heq
    have := (List.nodup_cons.mp h2).1
    exact this (List.mem_map.mpr ⟨x, hx, heq⟩)

theorem updateEventsNamed_map_eventFor (n : String) (cfg : Config)
    (oracle : HttpRequest → Response) (c : Client) (acts : List Action) :
    updateEventsNamed n (acts.map (eventFor cfg oracle c)) =
      (acts.filter (isUpdateNamed n)).map (eventFor cfg oracle c) := by
  unfold updateEventsNamed
  rw [List.filter_map]
  congr 1
  apply List.filter_congr
  intro a _
  simp only [Function.comp_apply, actionOf_eventFor]

theorem cuActions_decomp (L1 L2 existing : List Label) (d : Label) :
    createUpdateActions (L1 ++ d :: L2) existing =
      createUpdateActions L1 existing ++ (cuAction existing d).toList ++
        createUpdateActions L2 existing := by
  unfold createUpdateActions
  rw [List.filterMap_append, List.filterMap_cons]
  cases h : cuAction existing d <;> simp [h]

theorem isUpdateNamed_false_of_other_name {existing : List Label} {x : Label} {a : Action}
    (ha : cuAction existing x = some a) {n : String} (hx : x.name ≠ n) :
    isUpdateNamed n a = false := by
  rcases cuAction_shape ha with rfl | rfl
  · rfl
  · simpa [isUpdateNamed] using hx

/-- C2 (amended): when a desired label's name is borne by an existing
label (first match) with a different color, and desired names are unique,
exactly one update event is produced for that name, its HTTP request is a
PATCH addressed at the desired label's own constructed locator (the url
stored in the desired label, not the url the list call returned for the
existing label), and its body is the interpolation carrying the desired
color. -/
theorem c2_update_addressed (oracle : HttpRequest → Response) (c : Client) (sd : Bool)
    (labels existing : List Label) (d e0 : Label)
    (hnodup : (labels.map Label.name).Nodup) (hd : d ∈ labels)
    (hfind : existing.find? (fun e => e.name == d.name) = some e0)
    (hcol : d.color ≠ e0.color) :
    updateEventsNamed d.name (applyPhase ⟨false, true, sd⟩ oracle c labels existing) =
      [.attempted (.update d) (updateRequest c d)
        (Client.update c d (oracle (updateRequest c d)))] ∧
    updateRequest c d = ⟨.patch, d.url, some (to_json_string d)⟩ := by
  refine ⟨?_, rfl⟩
  have hcu : cuAction existing d = some (.update d) := by
    rw [cuAction_of_find? hfind, if_pos hcol]
  obtain ⟨L1, L2, rfl, h1, h2⟩ := exists_decomp_of_mem_nodup hnodup hd
  unfold applyPhase
  rw [if_pos rfl]
  unfold updateEventsNamed
  rw [List.filter_append]
  have hdel : (if sd then (deleteActions (L1 ++ d :: L2) existing).map
      (eventFor ⟨false, true, sd⟩ oracle c) else []).filter
      (fun ev => isUpdateNamed d.name (actionOf ev)) = [] := by
    cases sd
    · rfl
    · rw [if_pos rfl]
      apply List.filter_eq_nil_iff.mpr
      intro ev hev
      obtain ⟨a, ha, rfl⟩ := List.mem_map.mp hev
      obtain ⟨e, _, _, rfl⟩ := mem_deleteActions ha
      simp [actionOf_eventFor, isUpdateNamed]
  rw [hdel, List.append_nil]
  have hmap := updateEventsNamed_map_eventFor d.name ⟨false, true, sd⟩ oracle c
    (createUpdateActions (L1 ++ d :: L2) existing)
  unfold updateEventsNamed at hmap
  rw [hmap, cuActions_decomp, hcu]
  rw [List.filter_append, List.filter_append]
  rw [show List.filter (isUpdateNamed d.name) (some (Action.update d)).toList
      = [Action.update d] from by simp [isUpdateNamed]]
  rw [List.filter_eq_nil_iff.mpr (fun a ha => by
    obtain ⟨x, hx, hxa⟩ := mem_createUpdateActions ha
    simp [isUpdateNamed_false_of_other_name hxa (h1 x hx)])]
  rw [List.filter_eq_nil_iff.mpr (fun a ha => by
    obtain ⟨x, hx, hxa⟩ := mem_createUpdateActions ha
    simp [isUpdateNamed_false_of_other_name hxa (h2 x hx)])]
  simp [eventFor]

/-- Counterexample to C2 as stated: with one desired label bug/fc2929 and
one existing label bug/000000 whose locator is a different url entirely,
the single PATCH of the run is addressed at the desired label's
constructed locator, not at the existing label's locator. -/
theorem c2_counterexample :
    (eventCalls (applyPhase ⟨false, true, true⟩ (fun _ => ⟨200, ""⟩)
        ⟨"r", "t", "u", "https://api.github.com"⟩
        [⟨"fc2929", "bug", "https://api.github.com/repos/u/r/labels/bug"⟩]
        [⟨"000000", "bug", "https://example.com/elsewhere"⟩])).map HttpRequest.url =
      ["https://api.github.com/repos/u/r/labels/bug"] ∧
    ("https://api.github.com/repos/u/r/labels/bug" : String) ≠
      "https://example.com/elsewhere" :=
  ⟨rfl, by decide⟩

/-- Witness for C2 at a concrete input. -/
theorem c2_update_addressed_witness :
    updateEventsNamed "bug" (applyPhase ⟨false, true, true⟩ (fun _ => ⟨200, "done"⟩)
        ⟨"r", "t", "u", "e"⟩ [⟨"fc2929", "bug", "u1"⟩] [⟨"000000", "bug", "url1"⟩]) =
      [.attempted (.update ⟨"fc2929", "bug", "u1"⟩) ⟨.patch, "u1", some
        (to_json_string ⟨"fc2929", "bug", "u1"⟩)⟩
        (Client.update ⟨"r", "t", "u", "e"⟩ ⟨"fc2929", "bug", "u1"⟩ ⟨200, "done"⟩)] :=
  (c2_update_addressed (fun _ => ⟨200, "done"⟩) ⟨"r", "t", "u", "e"⟩ true
    [⟨"fc2929", "bug", "u1"⟩] [⟨"000000", "bug", "url1"⟩]
    ⟨"fc2929", "bug", "u1"⟩ ⟨"000000", "bug", "url1"⟩
    (by decide) (by decide) (by decide) (by decide)).1

/-! ### Lemmas on applying action sets (toward the idempotence claim) -/

theorem applyActions_cons (s : List Label) (a : Action) (t : List Action) :
    applyActions s (a :: t) = applyActions (applyAction s a) t := rfl

theorem applyActions_append (s : List Label) (xs ys : List Action) :
    applyActions s (xs ++ ys) = applyActions (applyActions s xs) ys :=
  List.foldl_append _ _ _ _

theorem recolor_preserves_name (d : Label) (e : Label) :
    ((fun e => if e.name == d.name then { e with color := d.color } else e) e).name
      = e.name := by
  by_cases h : (e.name == d.name) = true <;> simp [h]

theorem filterName_applyAction_untouched {n : String} {a : Action} (s : List Label)
    (h : actionNamed n a = false) :
    filterName n (applyAction s a) = filterName n s := by
  cases a with
  | create d =>
    have hd : (d.name == n) = false := h
    simp [filterName, applyAction, List.filter_append, hd]
  | update d =>
    have hd : (d.name == n) = false := h
    unfold filterName applyAction
    rw [List.filter_map]
    have hpred : ∀ e ∈ s,
        ((fun e => e.name == n) ∘
          (fun e => if e.name == d.name then { e with color := d.color } else e)) e
          = (e.name == n) := by
      intro e _
      simp only [Function.comp_apply]
      rw [recolor_preserves_name]
    rw [List.filter_congr hpred]
    have hmap : List.map
        (fun e => if e.name == d.name then { e with color := d.color } else e)
        (List.filter (fun e => e.name == n) s) =
        List.map id (List.filter (fun e => e.name == n) s) := by
      apply List.map_congr_left
      intro e he
      have hen : (e.name == n) = true := (List.mem_filter.mp he).2
      have : (e.name == d.name) = false := by
        have h1 : e.name = n := beq_iff_eq.mp hen
        rw [h1]
        rw [beq_eq_false_iff_ne]
        intro hc
        rw [hc] at hd
        simp at hd
      simp [this]
    rw [hmap, List.map_id]
  | delete l =>
    have hl : (l.name == n) = false := h
    unfold filterName applyAction
    rw [List.filter_filter]
    apply List.filter_congr
    intro e _
    by_cases hen : (e.name == n) = true
    · have h1 : e.name = n := beq_iff_eq.mp hen
      have : (e.name == l.name) = false := by
        rw [h1, beq_eq_false_iff_ne]
        intro hc
        rw [← hc] at hl
        simp at hl
      simp [hen, this]
    · simp [Bool.eq_false_iff.mpr hen]

theorem filterName_applyAction_create {n : String} {d : Label} (s : List Label)
    (h : (d.name == n) = true) :
    filterName n (applyAction s (.create d)) = filterName n s ++ [d] := by
  simp [filterName, applyAction, List.filter_append, h]

theorem filterName_applyAction_update {n : String} {d : Label} (s : List Label)
    (h : (d.name == n) = true) :
    filterName n (applyAction s (.update d)) =
      (filterName n s).map (fun e => { e with color := d.color }) := by
  unfold filterName applyAction
  rw [List.filter_map]
  have hpred : ∀ e ∈ s,
      ((fun e => e.name == n) ∘
        (fun e => if e.name == d.name then { e with color := d.color } else e)) e
        = (e.name == n) := by
    intro e _
    simp only [Function.comp_apply]
    rw [recolor_preserves_name]
  rw [List.filter_congr hpred]
  apply List.map_congr_left
  intro e he
  have hen : (e.name == n) = true := (List.mem_filter.mp he).2
  have hed : (e.name == d.name) = true := by
    rw [beq_iff_eq.mp hen, beq_iff_eq, beq_iff_eq.mp h]
  simp [hed]

theorem filterName_applyAction_delete {n : String} {l : Label} (s : List Label)
    (h : (l.name == n) = true) :
    filterName n (applyAction s (.delete l)) = [] := by
  unfold filterName applyAction
  rw [List.filter_filter]
  apply List.filter_eq_nil_iff.mpr
  intro e _
  by_cases hen : (e.name == n) = true
  · have : (e.name == l.name) = true := by
      rw [beq_iff_eq.mp hen, beq_iff_eq, beq_iff_eq.mp h]
    simp [this]
  · simp [Bool.eq_false_iff.mpr hen]

theorem filterName_applyActions_untouched {n : String} (acts : List Action)
    (s : List Label) (h : ∀ a ∈ acts, actionNamed n a = false) :
    filterName n (applyActions s acts) = filterName n s := by
  induction acts generalizing s with
  | nil => rfl
  | cons a t ih =>
    rw [applyActions_cons, ih _ (fun x hx => h x (List.mem_cons_of_mem _ hx)),
      filterName_applyAction_untouched s (h a (List.mem_cons_self _ _))]

theorem filterName_applyActions_deletesOnly {n : String} (acts : List Action)
    (s : List Label)
    (h : ∀ a ∈ acts, actionNamed n a = true → a.isDelete = true) :
    filterName n (applyActions s acts) =
      if acts.any (actionNamed n) then [] else filterName n s := by
  induction acts generalizing s with
  | nil => simp [applyActions]
  | cons a t ih =>
    rw [applyActions_cons]
    by_cases hn : actionNamed n a = true
    · have hdel : a.isDelete = true := h a (List.mem_cons_self _ _) hn
      cases a with
      | create d => exact absurd hdel (by simp [Action.isDelete])
      | update d => exact absurd hdel (by simp [Action.isDelete])
      | delete l =>
        have hl : (l.name == n) = true := hn
        rw [ih _ (fun x hx hx2 => h x (List.mem_cons_of_mem _ hx) hx2)]
        rw [filterName_applyAction_delete s hl]
        simp [List.any_cons, hn]
    · have hnf : actionNamed n a = false := Bool.eq_false_iff.mpr hn
      rw [ih _ (fun x hx hx2 => h x (List.mem_cons_of_mem _ hx) hx2)]
      rw [filterName_applyAction_untouched s hnf]
      simp [List.any_cons, hnf]

theorem filterName_eq_nil_of_not_contains {s : List Label} {l : Label}
    (h : listContains s l = false) : filterName l.name s = [] := by
  apply List.filter_eq_nil_iff.mpr
  intro e he
  simp only [listContains, labelEq] at h
  have := List.any_eq_false.mp h e he
  simpa using this

theorem cuActions_named_by_member {existing : List Label} {x : Label} {a : Action}
    (ha : cuAction existing x = some a) {n : String} (hx : x.name ≠ n) :
    actionNamed n a = false := by
  rcases cuAction_shape ha with rfl | rfl <;> simpa [actionNamed] using hx

theorem cuAction_after_apply_none (labels existing : List Label) (d : Label)
    (hnodup : (labels.map Label.name).Nodup) (hd : d ∈ labels) :
    cuAction (applyActions existing (reconcile labels existing)) d = none := by
  obtain ⟨L1, L2, hlab, h1, h2⟩ := exists_decomp_of_mem_nodup hnodup hd
  subst hlab
  have hL1 : ∀ a ∈ createUpdateActions L1 existing, actionNamed d.name a = false := by
    intro a ha
    obtain ⟨x, hx, hxa⟩ := mem_createUpdateActions ha
    exact cuActions_named_by_member hxa (h1 x hx)
  have hL2 : ∀ a ∈ createUpdateActions L2 existing, actionNamed d.name a = false := by
    intro a ha
    obtain ⟨x, hx, hxa⟩ := mem_createUpdateActions ha
    exact cuActions_named_by_member hxa (h2 x hx)
  have hD : ∀ a ∈ deleteActions (L1 ++ d :: L2) existing, actionNamed d.name a = false := by
    intro a ha
    obtain ⟨e, _, hce, rfl⟩ := mem_deleteActions ha
    show (e.name == d.name) = false
    simp only [listContains, labelEq] at hce
    have hne := List.any_eq_false.mp hce d hd
    rw [beq_eq_false_iff_ne]
    intro hc
    apply hne
    rw [hc]
    exact beq_self_eq_true _
  have hfil : filterName d.name
      (applyActions existing (reconcile (L1 ++ d :: L2) existing)) =
      filterName d.name
        (applyActions (applyActions existing (createUpdateActions L1 existing))
          (cuAction existing d).toList) := by
    unfold reconcile
    rw [applyActions_append, filterName_applyActions_untouched _ _ hD]
    rw [cuActions_decomp, applyActions_append, applyActions_append]
    rw [filterName_applyActions_untouched _ _ hL2]
  have hXuntouched : filterName d.name
      (applyActions existing (createUpdateActions L1 existing)) =
      filterName d.name existing := filterName_applyActions_untouched _ _ hL1
  rcases cuAction_cases existing d with ⟨hc, he⟩ | ⟨e0, he0, ⟨hne, he⟩ | ⟨hceq, he⟩⟩
  · rw [he, show (some (Action.create d)).toList = [Action.create d] from rfl] at hfil
    have hstep : filterName d.name
        (applyActions (applyActions existing (createUpdateActions L1 existing))
          [Action.create d]) = [d] := by
      show filterName d.name
        (applyAction (applyActions existing (createUpdateActions L1 existing))
          (Action.create d)) = [d]
      rw [filterName_applyAction_create _ (beq_self_eq_true d.name), hXuntouched,
        filterName_eq_nil_of_not_contains hc]
      rfl
    have hfil' := hfil.trans hstep
    have hfind : (applyActions existing (reconcile (L1 ++ d :: L2) existing)).find?
        (fun e => e.name == d.name) = some d := by
      rw [find?_eq_head?_filter]
      show (filterName d.name (applyActions existing
        (reconcile (L1 ++ d :: L2) existing))).head? = some d
      rw [hfil']
      rfl
    rw [cuAction_of_find? hfind]
    simp
  · rw [he, show (some (Action.update d)).toList = [Action.update d] from rfl] at hfil
    have hstep : filterName d.name
        (applyActions (applyActions existing (createUpdateActions L1 existing))
          [Action.update d]) =
        (filterName d.name existing).map (fun e => { e with color := d.color }) := by
      show filterName d.name
        (applyAction (applyActions existing (createUpdateActions L1 existing))
          (Action.update d)) = _
      rw [filterName_applyAction_update _ (beq_self_eq_true d.name), hXuntouched]
    have hfil' := hfil.trans hstep
    have hhead : (filterName d.name existing).head? = some e0 := by
      show (List.filter (fun e => e.name == d.name) existing).head? = some e0
      rw [← find?_eq_head?_filter]
      exact he0
    have hfind : (applyActions existing (reconcile (L1 ++ d :: L2) existing)).find?
        (fun e => e.name == d.name) = some { e0 with color := d.color } := by
      rw [find?_eq_head?_filter]
      show (filterName d.name (applyActions existing
        (reconcile (L1 ++ d :: L2) existing))).head? = _
      rw [hfil', List.head?_map, hhead]
      rfl
    rw [cuAction_of_find? hfind]
    simp
  · rw [he, show (none : Option Action).toList = ([] : List Action) from rfl] at hfil
    have hfil' : filterName d.name
        (applyActions existing (reconcile (L1 ++ d :: L2) existing)) =
        filterName d.name existing := hfil.trans hXuntouched
    have hhead : (filterName d.name existing).head? = some e0 := by
      show (List.filter (fun e => e.name == d.name) existing).head? = some e0
      rw [← find?_eq_head?_filter]
      exact he0
    have hfind : (applyActions existing (reconcile (L1 ++ d :: L2) existing)).find?
        (fun e => e.name == d.name) = some e0 := by
      rw [find?_eq_head?_filter]
      show (filterName d.name (applyActions existing
        (reconcile (L1 ++ d :: L2) existing))).head? = some e0
      rw [hfil', hhead]
    rw [cuAction_of_find? hfind]
    simp [hceq]

/-- C7 (amended): reconciliation is idempotent provided the desired
template's names are pairwise distinct: applying the produced action set
to the existing snapshot (creates added, updates recolored, deletes
removed) and re-running reconciliation of the same desired labels against
the updated state yields the empty action set. With duplicate template
names the property fails, see the counterexample. -/
theorem c7_idempotent_for_unique_names (labels existing : List Label)
    (hnodup : (labels.map Label.name).Nodup) :
    reconcile labels (applyActions existing (reconcile labels existing)) = [] := by
  have hcunil : createUpdateActions labels
      (applyActions existing (reconcile labels existing)) = [] := by
    unfold createUpdateActions
    exact List.filterMap_eq_nil_iff.mpr
      (fun d hd => cuAction_after_apply_none labels existing d hnodup hd)
  have hdelnil : deleteActions labels
      (applyActions existing (reconcile labels existing)) = [] := by
    have hfilnil : List.filter (fun e => !(listContains labels e))
        (applyActions existing (reconcile labels existing)) = [] := by
      apply List.filter_eq_nil_iff.mpr
      intro e he
      cases hval : listContains labels e with
      | true => simp [hval]
      | false =>
        exfalso
        have hcont : listContains labels e = false := hval
        have hall : ∀ a ∈ reconcile labels existing,
            actionNamed e.name a = true → a.isDelete = true := by
          intro a ha hnamed
          unfold reconcile at ha
          rcases List.mem_append.mp ha with hcu | hdel
          · exfalso
            obtain ⟨x, hx, hxa⟩ := mem_createUpdateActions hcu
            have hxn : (x.name == e.name) = true := by
              rcases cuAction_shape hxa with rfl | rfl <;> exact hnamed
            have : listContains labels e = true :=
              List.any_eq_true.mpr ⟨x, hx, hxn⟩
            rw [this] at hcont
            cases hcont
          · exact deleteActions_isDelete hdel
        have hfe := filterName_applyActions_deletesOnly (reconcile labels existing)
          existing hall
        have hmemfil : e ∈ filterName e.name
            (applyActions existing (reconcile labels existing)) :=
          List.mem_filter.mpr ⟨he, by simp⟩
        by_cases hany : (reconcile labels existing).any (actionNamed e.name) = true
        · rw [if_pos hany] at hfe
          rw [hfe] at hmemfil
          exact absurd hmemfil (List.not_mem_nil e)
        · rw [if_neg hany] at hfe
          rw [hfe] at hmemfil
          have heex : e ∈ existing := (List.mem_filter.mp hmemfil).1
          have hdmem : Action.delete e ∈ deleteActions labels existing := by
            unfold deleteActions
            exact List.mem_map.mpr ⟨e, List.mem_filter.mpr ⟨heex, by simp [hcont]⟩, rfl⟩
          have : (reconcile labels existing).any (actionNamed e.name) = true := by
            apply List.any_eq_true.mpr
            refine ⟨Action.delete e, ?_, by simp [actionNamed]⟩
            unfold reconcile
            exact List.mem_append.mpr (Or.inr hdmem)
          exact hany this
    unfold deleteActions
    rw [hfilnil]
    rfl
  show createUpdateActions _ _ ++ deleteActions _ _ = []
  rw [hcunil, hdelnil]
  rfl

/-- Counterexample to C7 as stated: with a template holding two entries of
the same name and different colors against an empty remote, the produced
actions are two creates; applying them and re-running reconciliation
yields an update, not the empty action set. -/
theorem c7_counterexample :
    reconcile [⟨"111111", "dup", "u"⟩, ⟨"222222", "dup", "u"⟩]
      (applyActions []
        (reconcile [⟨"111111", "dup", "u"⟩, ⟨"222222", "dup", "u"⟩] [])) =
      [.update ⟨"222222", "dup", "u"⟩] ∧
    ([.update (⟨"222222", "dup", "u"⟩ : Label)] : List Action) ≠ [] :=
  ⟨rfl, by decide⟩

/-- Witness for C7 at a concrete input: one desired label against one
existing label of the same name and another color. -/
theorem c7_idempotent_witness :
    reconcile [⟨"fc2929", "bug", "u"⟩]
      (applyActions [⟨"000000", "bug", "url1"⟩]
        (reconcile [⟨"fc2929", "bug", "u"⟩] [⟨"000000", "bug", "url1"⟩])) = [] :=
  c7_idempotent_for_unique_names [⟨"fc2929", "bug", "u"⟩] [⟨"000000", "bug", "url1"⟩]
    (by decide)

end Ghlabel
